import Mathlib

/-!
# Verification of the AI document insight backend

Shallow embedding of `src/backend/main.py` (FastAPI resume-insight tool):
the keyword analyzer `get_top_keywords`, the summarizer client
`get_ai_summary`, the upload pipeline `upload_resume`, and the two read
endpoints `get_history` and `get_insights`, together with proofs of the
spec's claims about them.

Conventions of the embedding:
* Python strings are Lean `String`s; `re` character classes and
  `str.lower`/`str.strip` are modelled at ASCII fidelity (the inputs of
  every concrete theorem below are ASCII).
* Effectful steps (HTTP call, file save, clock, uuid, SQLite) are passed
  in explicitly: the HTTP response is an oracle `ApiCall → HttpOutcome`,
  the database is a `List Row` threaded through, and the pipeline also
  returns the list of HTTP calls it attempted.
* Python exceptions are explicit: `Except`/sum results; an uncaught
  exception is a `crash` constructor, never silently dropped.
-/

namespace DocTool

/-! ## Character classes and Python string primitives -/

/-- Python regex `\w` (word character), at ASCII fidelity: letters, digits
and the underscore.  This is the class used by `re.findall(r'\b\w+\b', ...)`. -/
def isPyWordChar (c : Char) : Bool :=
  c.isAlphanum || c = '_'

/-- ASCII uppercase letter test, `'A' ≤ c ≤ 'Z'` expressed over code points
(used to state the lower-case invariant). -/
def isAsciiUpper (c : Char) : Bool :=
  decide (65 ≤ c.toNat) && decide (c.toNat ≤ 90)

/-- Python `str.lower()` at ASCII fidelity: map every character to lower case. -/
def pyLower (s : String) : String :=
  ⟨s.data.map Char.toLower⟩

/-- Python whitespace characters stripped by `str.strip()` (ASCII part). -/
def isPyWs (c : Char) : Bool :=
  c = ' ' || c = '\t' || c = '\n' || c = '\r' || c = '\x0b' || c = '\x0c'

/-- Remove trailing characters satisfying `isPyWs`. -/
def stripRightList : List Char → List Char
  | [] => []
  | c :: cs =>
    match stripRightList cs with
    | [] => if isPyWs c then [] else [c]
    | r => c :: r

/-- Python `str.strip()` (no argument): drop leading and trailing whitespace. -/
def pyStrip (s : String) : String :=
  ⟨stripRightList (s.data.dropWhile isPyWs)⟩

/-- Python `str.endswith(suffix)`, over character lists (the byte-level
`String.endsWith` of the standard library is not kernel-reducible). -/
def pyEndsWith (s suffix : String) : Bool :=
  List.isSuffixOf suffix.data s.data

/-! ## Tokenization: `re.findall(r'\b\w+\b', text)`

`findWords` models the regex engine's left-to-right scan, accumulating the
current run of word characters; `runsOf` is the declarative "maximal runs"
reading used by the spec.  They are proved equal below. -/

/-- Scanning tokenizer: `acc` is the current word-character run, reversed. -/
def findWordsAux : List Char → List Char → List (List Char)
  | [], [] => []
  | [], acc => [acc.reverse]
  | c :: cs, acc =>
    if isPyWordChar c then findWordsAux cs (c :: acc)
    else match acc with
      | [] => findWordsAux cs []
      | _ :: _ => acc.reverse :: findWordsAux cs []

/-- Model of `re.findall(r'\b\w+\b', s)`: all maximal word-character runs, in order. -/
def findWords (s : String) : List String :=
  (findWordsAux s.data []).map (fun l => ⟨l⟩)

/-- Declarative tokenizer: maximal runs of characters satisfying `wc`. -/
def runsOf (wc : Char → Bool) : List Char → List (List Char)
  | [] => []
  | c :: cs =>
    let rest := runsOf wc cs
    if wc c then
      match cs with
      | [] => [[c]]
      | c2 :: _ =>
        if wc c2 then (c :: rest.headD []) :: rest.tail
        else [c] :: rest
    else rest

/-! ## The keyword analyzer `get_top_keywords` -/

/-- The stop-word set of `get_top_keywords`, verbatim from the source. -/
def stop_words : List String :=
  ["i", "me", "my", "myself", "we", "our", "ours", "ourselves", "you", "your", "yours",
   "he", "him", "his", "she", "her", "it", "its", "they", "them", "their", "what", "which",
   "who", "whom", "this", "that", "these", "those", "am", "is", "are", "was", "were", "be",
   "been", "being", "have", "has", "had", "having", "do", "does", "did", "doing", "a", "an",
   "the", "and", "but", "if", "or", "because", "as", "until", "while", "of", "at", "by",
   "for", "with", "about", "to", "from", "in", "out", "on", "off", "over", "under", "again",
   "further", "then", "once", "here", "there", "when", "where", "why", "how", "all", "any",
   "both", "each", "few", "more", "most", "other", "some", "such", "no", "nor", "not", "only",
   "own", "same", "so", "than", "too", "very", "s", "t", "can", "will", "just", "don", "should", "now"]

/-- First occurrence of each string, in order of first appearance, skipping
strings already in `seen`. -/
def firstSeenAux (seen : List String) : List String → List String
  | [] => []
  | w :: ws =>
    if seen.contains w then firstSeenAux seen ws
    else w :: firstSeenAux (w :: seen) ws

/-- Distinct elements in order of first appearance. -/
def firstSeen (ws : List String) : List String :=
  firstSeenAux [] ws

/-- Model of `collections.Counter(ws)`: a dict whose keys appear in
first-insertion order (= first occurrence order in `ws`), each mapped to its
multiplicity in `ws`. -/
def counter (ws : List String) : List (String × Nat) :=
  (firstSeen ws).map (fun w => (w, ws.count w))

/-- Insert into a count-descending list, after all entries of count ≥ its own
(so that the overall sort is stable). -/
def insertByCount (x : String × Nat) : List (String × Nat) → List (String × Nat)
  | [] => [x]
  | y :: ys =>
    if y.2 < x.2 then x :: y :: ys
    else y :: insertByCount x ys

/-- Stable sort by count, descending: the order produced by
`sorted(items, key=count, reverse=True)`, hence by `Counter.most_common`. -/
def sortByCountDesc (l : List (String × Nat)) : List (String × Nat) :=
  l.foldl (fun acc x => insertByCount x acc) []

/-- Model of `Counter.most_common(n)`: the `n` highest counts, stable on ties. -/
def mostCommon (l : List (String × Nat)) (n : Nat) : List (String × Nat) :=
  (sortByCountDesc l).take n

/-- The token filter of `get_top_keywords`:
`word not in stop_words and len(word) > 2`. -/
def keepToken (w : String) : Bool :=
  !(stop_words.contains w) && decide (w.length > 2)

/-- The analyzer `get_top_keywords(text, num_keywords)` from the source: lower-case,
tokenize with `\b\w+\b`, drop stop words and short words, count, and take the
`num_keywords` most common words.  (The Python default for `num_keywords`
is 5; callers below pass it explicitly.)  Returns the `top_keywords` list of
the `KeywordInsight` model. -/
def get_top_keywords (text : String) (num_keywords : Nat) : List String :=
  let words := findWords (pyLower text)
  let filtered_words := words.filter keepToken
  let word_counts := counter filtered_words
  (mostCommon word_counts num_keywords).map Prod.fst

/-! ## The keyword analyzer as the spec words it

Claim C2 describes the analyzer declaratively.  `specAnalyzer wc` is that
description, parameterized by the token character class `wc`: case-fold,
split into maximal `wc`-runs, discard tokens shorter than 3 characters and
stop words, rank distinct tokens by frequency descending with ties in first
encountered order, return at most `n`.  The claim's own class is
"alphanumeric runs" (`Char.isAlphanum`); the code's is `\w` (`isPyWordChar`). -/

def specAnalyzer (wc : Char → Bool) (text : String) (n : Nat) : List String :=
  let toks := (runsOf wc (pyLower text).data).map (fun l => (⟨l⟩ : String))
  let kept := toks.filter (fun w => decide (3 ≤ w.length) && !(stop_words.contains w))
  let ranked := sortByCountDesc ((firstSeen kept).map (fun w => (w, kept.count w)))
  (ranked.take n).map Prod.fst

/-! ## JSON values and Python attribute/index semantics

`get_ai_summary` digs into the provider's parsed JSON response with
`data.get("choices", [{}])[0].get("message", {}).get("content", "").strip()`.
Each step can raise: `.get` on a non-dict raises `AttributeError`, `[0]` on
an empty list raises `IndexError`, on a dict `KeyError`, on a number
`TypeError`, and `.strip()` on a non-string raises `AttributeError`.  Only
`requests.exceptions.RequestException` is caught by the function. -/

inductive Json where
  | null
  | bool (b : Bool)
  | num (n : Int)
  | str (s : String)
  | arr (elems : List Json)
  | obj (fields : List (String × Json))

/-- Uncaught Python exception classes reachable in `get_ai_summary`. -/
inductive PyExc where
  | indexError
  | keyError
  | typeError
  | attributeError
deriving DecidableEq, Repr

/-- Python `v.get(key, dflt)`.  Defined only for dicts; anything else has no
`get` attribute. -/
def pyDictGet (v : Json) (key : String) (dflt : Json) : Except PyExc Json :=
  match v with
  | .obj fields =>
    match fields.find? (fun p => p.1 == key) with
    | some p => .ok p.2
    | none => .ok dflt
  | _ => .error .attributeError

/-- Python `v[0]`. -/
def pyIndexZero (v : Json) : Except PyExc Json :=
  match v with
  | .arr [] => .error .indexError
  | .arr (e :: _) => .ok e
  | .obj _ => .error .keyError
  | .str s =>
    match s.data with
    | [] => .error .indexError
    | c :: _ => .ok (.str ⟨[c]⟩)
  | _ => .error .typeError

/-- Python `v.strip()`: only strings have `strip`. -/
def pyStripAttr (v : Json) : Except PyExc String :=
  match v with
  | .str s => .ok (pyStrip s)
  | _ => .error .attributeError

/-- The summary-extraction expression of `get_ai_summary`, line 118 of the
source, with Python exception semantics. -/
def extractSummary (data : Json) : Except PyExc String :=
  match pyDictGet data "choices" (Json.arr [Json.obj []]) with
  | .error e => .error e
  | .ok choices =>
    match pyIndexZero choices with
    | .error e => .error e
    | .ok first =>
      match pyDictGet first "message" (Json.obj []) with
      | .error e => .error e
      | .ok message =>
        match pyDictGet message "content" (Json.str "") with
        | .error e => .error e
        | .ok content => pyStripAttr content

/-! ## The summarizer client `get_ai_summary` -/

/-- The hardcoded fallback of `os.getenv("SARVAM_API_KEY", ...)` (line 25). -/
def SARVAM_DEFAULT_KEY : String := "sk_m89a86ja_QlNeF7Iei6LPjCs3q7ZqgyEo"

/-- Key resolution of `SARVAM_API_KEY`: the environment value if set, else the hardcoded default. -/
def SARVAM_API_KEY (env : Option String) : String :=
  env.getD SARVAM_DEFAULT_KEY

def SARVAM_API_URL : String := "https://api.sarvam.ai/v1/llm/chat/completions"

/-- The outcome of one `requests.post` call, as the oracle reports it:
an exception from the request itself (all `RequestException` subclasses —
`ConnectionError`, `Timeout`, ... — behave identically downstream, but
network failure and timeout are kept apart to mirror the spec's taxonomy),
or an HTTP response with a status code and a body; `none` for the body
means `response.json()` cannot parse it. -/
inductive HttpOutcome where
  | networkError
  | timeout
  | response (status : Nat) (body : Option Json)

/-- Value returned (or exception escaped) by `get_ai_summary`. -/
inductive SummaryResult where
  | ret (s : Option String)
  | crash (e : PyExc)
deriving DecidableEq, Repr

/-- One HTTP request as the client builds it (line 100-112): the URL, the
`Authorization` header, and the user-message content of the payload. -/
structure ApiCall where
  url : String
  authHeader : String
  promptContent : String
deriving DecidableEq, Repr

/-- The prompt of `get_ai_summary` (line 105). -/
def summaryPrompt (text : String) : String :=
  "Please provide a concise summary of the following resume text in about 50-70 words, highlighting key skills and experiences:\n\n" ++ text

/-- The single request `get_ai_summary` posts. -/
def mkApiCall (apiKeyEnv : Option String) (text : String) : ApiCall :=
  ⟨SARVAM_API_URL, "Bearer " ++ SARVAM_API_KEY apiKeyEnv, summaryPrompt text⟩

/-- What `get_ai_summary` does with the outcome of its `requests.post`:
`raise_for_status` raises `HTTPError` for statuses 400-599 (caught, → `None`);
an unparseable body raises `JSONDecodeError`, a `RequestException` subclass
(caught, → `None`); then the extraction expression runs, whose exceptions
are NOT `RequestException` and therefore escape; finally
`return summary if summary else None`. -/
def summaryOfOutcome (outcome : HttpOutcome) : SummaryResult :=
  match outcome with
  | .networkError => .ret none
  | .timeout => .ret none
  | .response status body =>
    if 400 ≤ status ∧ status < 600 then .ret none
    else
      match body with
      | none => .ret none
      | some data =>
        match extractSummary data with
        | .ok s => .ret (if s = "" then none else some s)
        | .error e => .crash e

/-- The client `get_ai_summary(text)` (lines 98-122): builds the request
unconditionally — there is no branch on whether the API key was present in
the environment — posts it, and processes the outcome.  Also returns the
list of requests attempted (always exactly one). -/
def get_ai_summary (apiKeyEnv : Option String) (respond : ApiCall → HttpOutcome)
    (text : String) : SummaryResult × List ApiCall :=
  let call := mkApiCall apiKeyEnv text
  (summaryOfOutcome (respond call), [call])

/-! ## Serialization of `KeywordInsight` and its stored form

The pipeline stores `KeywordInsight(top_keywords=...).json()`, i.e.
`json.dumps({"top_keywords": [...]})` with default separators; the read
endpoints run `KeywordInsight.parse_raw` on the stored text.  The parser
below accepts exactly the JSON fragment those payloads live in — an object
with the single key `top_keywords` holding an array of escape-free strings —
and rejects everything else; pydantic likewise raises on payloads that are
not valid JSON for the model.  (JSON string escapes are not modelled: the
analyzer's tokens are `\w`-runs and never need them.) -/

def quoteStr (s : String) : String := "\"" ++ s ++ "\""

/-- Comma-space-joined quoted items, as `json.dumps` renders a list body. -/
def joinItems : List String → String
  | [] => ""
  | [x] => quoteStr x
  | x :: y :: ys => quoteStr x ++ ", " ++ joinItems (y :: ys)

/-- Serialization `KeywordInsight(top_keywords=ks).json()`. -/
def keywordInsightJson (ks : List String) : String :=
  "\x7b\"top_keywords\": [" ++ joinItems ks ++ "]\x7d"

def isJsonWs (c : Char) : Bool :=
  c = ' ' || c = '\t' || c = '\n' || c = '\r'

def skipWs : List Char → List Char
  | [] => []
  | c :: cs => if isJsonWs c then skipWs cs else c :: cs

/-- Parse the body of a JSON string literal after its opening quote, up to
the closing quote; escape sequences are rejected (see above). -/
def parseStrBody : List Char → Option (List Char × List Char)
  | [] => none
  | c :: cs =>
    if c = '"' then some ([], cs)
    else if c = '\\' then none
    else
      match parseStrBody cs with
      | some (s, rest) => some (c :: s, rest)
      | none => none

/-- Skip whitespace, then require the next character to be `c`. -/
def expectChar (c : Char) (cs : List Char) : Option (List Char) :=
  match skipWs cs with
  | [] => none
  | x :: rest => if x = c then some rest else none

/-- Parse one quoted string after whitespace. -/
def parseQuoted (cs : List Char) : Option (String × List Char) :=
  match expectChar '"' cs with
  | none => none
  | some rest =>
    match parseStrBody rest with
    | some (s, rest2) => some ((⟨s⟩ : String), rest2)
    | none => none

/-- Parse the items of a string array after the first item, accumulating in
reverse; `fuel` bounds the recursion (callers pass the input length). -/
def parseMoreItems : Nat → List String → List Char → Option (List String × List Char)
  | 0, _, _ => none
  | fuel + 1, acc, cs =>
    match expectChar ']' cs with
    | some rest => some (acc.reverse, rest)
    | none =>
      match expectChar ',' cs with
      | none => none
      | some rest =>
        match parseQuoted rest with
        | some (s, rest2) => parseMoreItems fuel (s :: acc) rest2
        | none => none

/-- Parse a JSON array of strings. -/
def parseStrArray (cs : List Char) : Option (List String × List Char) :=
  match expectChar '[' cs with
  | none => none
  | some rest =>
    match expectChar ']' rest with
    | some rest2 => some ([], rest2)
    | none =>
      match parseQuoted rest with
      | some (s, rest2) => parseMoreItems (rest2.length + 1) [s] rest2
      | none => none

/-- Decoder `KeywordInsight.parse_raw(s)`: `none` models the pydantic
`ValidationError` raised on anything that does not decode. -/
def parseKeywordInsight (s : String) : Option (List String) :=
  match expectChar '\x7b' s.data with
  | none => none
  | some cs =>
    match parseQuoted cs with
    | none => none
    | some (key, cs2) =>
      if key = "top_keywords" then
        match expectChar ':' cs2 with
        | none => none
        | some cs3 =>
          match parseStrArray cs3 with
          | none => none
          | some (items, cs4) =>
            match expectChar '\x7d' cs4 with
            | none => none
            | some cs5 => if skipWs cs5 = [] then some items else none
      else none

/-! ## The document store and the endpoints -/

/-- One row of the `documents` table.  `filesize` is the SQLite `REAL`
column; Python floats are modelled as exact rationals (the claims at issue
only move the value around unchanged). -/
structure Row where
  id : String
  filename : String
  filesize : Rat
  upload_date : String
  processed_by : String
  insights : String
deriving DecidableEq, Repr

/-- The decoded `insights` field of the response model: a summary string
for provenance `AI`, a keyword list for provenance `Keyword`. -/
inductive Insights where
  | ai (summary : String)
  | keyword (top_keywords : List String)
deriving DecidableEq, Repr

/-- The `Document` response model. -/
structure Document where
  id : String
  filename : String
  filesize : Rat
  upload_date : String
  processed_by : String
  insights : Insights
deriving DecidableEq, Repr

/-- The per-row decode of both read endpoints (lines 222-225, 250-253):
`Keyword` rows go through `KeywordInsight.parse_raw`, every other
provenance is returned as the raw string. -/
def decodeInsights (processed_by : String) (insights : String) : Option Insights :=
  if processed_by = "Keyword" then (parseKeywordInsight insights).map Insights.keyword
  else some (.ai insights)

def rowToDoc (r : Row) (ins : Insights) : Document :=
  ⟨r.id, r.filename, r.filesize, r.upload_date, r.processed_by, ins⟩

/-- Code-point-wise lexicographic "less than", the SQLite BINARY collation
on the ASCII ISO-8601 timestamps the pipeline writes (the standard
library's byte-level `String` order is not kernel-reducible). -/
def listLtb : List Char → List Char → Bool
  | _, [] => false
  | [], _ :: _ => true
  | c :: cs, d :: ds =>
    if c.toNat < d.toNat then true
    else if d.toNat < c.toNat then false
    else listLtb cs ds

def strLtb (s t : String) : Bool := listLtb s.data t.data

/-- Insert into a date-descending list, before the first strictly older row
(so equal dates keep their relative order). -/
def insertRowDesc (r : Row) : List Row → List Row
  | [] => [r]
  | y :: ys =>
    if strLtb y.upload_date r.upload_date then r :: y :: ys
    else y :: insertRowDesc r ys

/-- Sorting `ORDER BY upload_date DESC`: SQLite compares the TEXT column bytewise,
which on the ISO-8601 timestamps the pipeline writes is lexicographic
`String` order. -/
def sortRowsByDateDesc (rows : List Row) : List Row :=
  rows.foldl (fun acc r => insertRowDesc r acc) []

/-- Decode every row in order; the first failing `parse_raw` raises, so one
bad row makes the whole loop (and response) fail. -/
def decodeAllRows : List Row → Option (List Document)
  | [] => some []
  | r :: rs =>
    match decodeInsights r.processed_by r.insights with
    | none => none
    | some ins => (decodeAllRows rs).map (fun ds => rowToDoc r ins :: ds)

inductive HistoryResult where
  | ok (docs : List Document)
  | crash
deriving DecidableEq, Repr

/-- Endpoint `GET /history/` (lines 209-235): select all rows newest-first, decode
each; a `ValidationError` from any row escapes the endpoint (`crash`). -/
def get_history (store : List Row) : HistoryResult :=
  match decodeAllRows (sortRowsByDateDesc store) with
  | some docs => .ok docs
  | none => .crash

inductive InsightsResult where
  | ok (doc : Document)
  | notFound
  | crash
deriving DecidableEq, Repr

/-- Endpoint `GET /insights/` on a document id (lines 237-262): fetch the row with the
given primary key (the first match in insertion order), 404 if none, decode
its payload by provenance. -/
def get_insights (store : List Row) (document_id : String) : InsightsResult :=
  match store.find? (fun r => r.id == document_id) with
  | none => .notFound
  | some r =>
    match decodeInsights r.processed_by r.insights with
    | none => .crash
    | some ins => .ok (rowToDoc r ins)

/-! ## The upload pipeline `upload_resume` -/

/-- Everything one request of `POST /upload-resume/` depends on, effects
made explicit. -/
structure UploadInput where
  filename : String
  saveOk : Bool
  fileSizeBytes : Nat
  extracted : Option String
  docId : String
  uploadTime : String
  apiKeyEnv : Option String
  respond : ApiCall → HttpOutcome

inductive UploadResult where
  | ok (doc : Document)
  | httpError (status : Nat) (detail : String)
  | crash (e : PyExc)
deriving DecidableEq, Repr

/-- Endpoint `upload_resume` (lines 154-207): extension check, file save, text
extraction (`none` = pypdf exception → the 500 raised inside
`extract_text_from_pdf`; empty text → 500 from line 174), one summarizer
attempt, fallback to keywords, insert, response.  Returns the endpoint
result, the store after the request, and the HTTP calls attempted. -/
def upload_resume (inp : UploadInput) (store : List Row) :
    UploadResult × List Row × List ApiCall :=
  if !(pyEndsWith (pyLower inp.filename) ".pdf") then
    (.httpError 400 "Invalid file type. Please upload a PDF.", store, [])
  else if !inp.saveOk then
    (.httpError 500 "Could not save file.", store, [])
  else
    let filesize_mb : Rat := (inp.fileSizeBytes : Rat) / (1024 * 1024)
    match inp.extracted with
    | none => (.httpError 500 "Failed to extract text from PDF.", store, [])
    | some text =>
      if text = "" then
        (.httpError 500 "PDF is empty or text could not be extracted.", store, [])
      else
        match get_ai_summary inp.apiKeyEnv inp.respond text with
        | (.crash e, calls) => (.crash e, store, calls)
        | (.ret (some s), calls) =>
          let row : Row := ⟨inp.docId, inp.filename, filesize_mb, inp.uploadTime, "AI", s⟩
          (.ok ⟨inp.docId, inp.filename, filesize_mb, inp.uploadTime, "AI", .ai s⟩,
           store ++ [row], calls)
        | (.ret none, calls) =>
          let ks := get_top_keywords text 5
          let row : Row := ⟨inp.docId, inp.filename, filesize_mb, inp.uploadTime, "Keyword",
                            keywordInsightJson ks⟩
          (.ok ⟨inp.docId, inp.filename, filesize_mb, inp.uploadTime, "Keyword", .keyword ks⟩,
           store ++ [row], calls)

/-- How a pending (reversed) run `acc` combines with the runs of the rest of
the input. -/
def glueRun (acc : List Char) (cs : List Char) (toks : List (List Char)) :
    List (List Char) :=
  match cs with
  | [] => [acc.reverse]
  | c :: _ =>
    if isPyWordChar c then (acc.reverse ++ toks.headD []) :: toks.tail
    else acc.reverse :: toks

/-- The serialized items after the first: `", "` then a quoted string, for
each further keyword. -/
def tailItems : List String → List Char
  | [] => []
  | y :: ys => ',' :: ' ' :: '"' :: (y.data ++ '"' :: tailItems ys)

/-- The HTTP status of an upload outcome: 200 on success (FastAPI default),
the raised status of an `HTTPException`, `none` when an uncaught exception
escapes the endpoint. -/
def uploadStatus : UploadResult → Option Nat
  | .ok _ => some 200
  | .httpError s _ => some s
  | .crash _ => none

/-! ## Concrete fixtures used by the closed theorems -/

/-- A 200 response body whose `choices` field is an empty list. -/
def emptyChoicesBody : Json := .obj [("choices", Json.arr [])]

/-- A well-shaped 200 response body carrying `s` as the message content. -/
def goodSummaryBody (s : String) : Json :=
  .obj [("choices",
    Json.arr [Json.obj [("message", Json.obj [("content", Json.str s)])]])]

/-- A PDF upload whose summarizer response is 200 with `choices: []`. -/
def inpCrash : UploadInput :=
  ⟨"resume.pdf", true, 1048576, some "cat cat dog dog dog bird", "doc-1",
   "2024-01-01T00:00:00", some "env-key", fun _ => .response 200 (some emptyChoicesBody)⟩

/-- A PDF upload whose extracted text is empty. -/
def inpEmptyText : UploadInput :=
  ⟨"resume.pdf", true, 1048576, some "", "doc-2", "2024-01-02T00:00:00", none,
   fun _ => .networkError⟩

/-- An upload with a non-PDF filename. -/
def inpTxt : UploadInput :=
  ⟨"resume.txt", true, 1048576, some "hello world", "doc-3", "2024-01-03T00:00:00", none,
   fun _ => .networkError⟩

/-- A PDF upload with no API key in the environment and an unreachable
network. -/
def inpNoKey : UploadInput :=
  ⟨"resume.pdf", true, 1048576, some "cat cat dog dog dog bird", "doc-4",
   "2024-01-04T00:00:00", none, fun _ => .networkError⟩

/-- A PDF upload whose summarizer responds 200 with a padded summary. -/
def inpAI : UploadInput :=
  ⟨"resume.pdf", true, 1048576, some "cat dog", "doc-5", "2024-01-05T00:00:00",
   some "env-key", fun _ => .response 200 (some (goodSummaryBody "  A concise summary.  "))⟩

/-- A well-formed Keyword row. -/
def rowGood : Row :=
  ⟨"id-a", "a.pdf", 1, "2024-01-02T00:00:00", "Keyword", keywordInsightJson ["dog"]⟩

/-- A Keyword row whose stored payload is not valid serialized keyword JSON. -/
def rowCorrupt : Row :=
  ⟨"id-b", "b.pdf", 1, "2024-01-01T00:00:00", "Keyword", "corrupt"⟩

/-- Three well-formed rows with increasing upload timestamps. -/
def rowT1 : Row :=
  ⟨"id-1", "r1.pdf", 1, "2024-01-01T00:00:00", "Keyword", keywordInsightJson ["dog"]⟩

def rowT2 : Row :=
  ⟨"id-2", "r2.pdf", 2, "2024-01-02T00:00:00", "AI", "A nice summary."⟩

def rowT3 : Row :=
  ⟨"id-3", "r3.pdf", 3, "2024-01-03T00:00:00", "Keyword", keywordInsightJson []⟩

/-! ## Lemmas about `pyStrip` -/

theorem dropWhile_isPyWs_head_false (l : List Char) (c : Char) (cs : List Char)
    (h : l.dropWhile isPyWs = c :: cs) : isPyWs c = false := by
  induction l with
  | nil => simp at h
  | cons a as ih =>
    by_cases ha : isPyWs a
    · exact ih (by simpa [List.dropWhile_cons, ha] using h)
    · simp only [List.dropWhile_cons, ha, if_false] at h
      cases h
      simpa using ha

theorem stripRightList_cons_shape (c : Char) (cs : List Char) :
    stripRightList (c :: cs) = [] ∨ ∃ t, stripRightList (c :: cs) = c :: t := by
  simp only [stripRightList]
  cases hr : stripRightList cs with
  | nil =>
    by_cases hc : isPyWs c
    · exact Or.inl (by simp [hc])
    · exact Or.inr ⟨[], by simp [hc]⟩
  | cons a as => exact Or.inr ⟨a :: as, rfl⟩

theorem stripRightList_cons_of_nil (c : Char) (cs : List Char)
    (h : stripRightList cs = []) :
    stripRightList (c :: cs) = if isPyWs c then [] else [c] := by
  simp only [stripRightList, h]

theorem stripRightList_cons_of_cons (c a : Char) (cs as : List Char)
    (h : stripRightList cs = a :: as) :
    stripRightList (c :: cs) = c :: a :: as := by
  simp only [stripRightList, h]

theorem stripRightList_idem (l : List Char) :
    stripRightList (stripRightList l) = stripRightList l := by
  induction l with
  | nil => rfl
  | cons c cs ih =>
    cases hr : stripRightList cs with
    | nil =>
      rw [stripRightList_cons_of_nil c cs hr]
      by_cases hc : isPyWs c
      · rw [if_pos hc]; rfl
      · rw [if_neg hc]
        rw [stripRightList_cons_of_nil c [] rfl, if_neg hc]
    | cons a as =>
      rw [stripRightList_cons_of_cons c a cs as hr]
      have h2 : stripRightList (a :: as) = a :: as := by rw [← hr, ih, hr]
      rw [stripRightList_cons_of_cons c a (a :: as) as h2]

/-- Python `str.strip()` is idempotent: a stripped string has no leading or
trailing whitespace left to remove. -/
theorem pyStrip_idem (s : String) : pyStrip (pyStrip s) = pyStrip s := by
  unfold pyStrip
  congr 1
  show stripRightList ((stripRightList (s.data.dropWhile isPyWs)).dropWhile isPyWs)
      = stripRightList (s.data.dropWhile isPyWs)
  cases hm : s.data.dropWhile isPyWs with
  | nil => rfl
  | cons c cs =>
    have hc : isPyWs c = false := dropWhile_isPyWs_head_false _ _ _ hm
    rcases stripRightList_cons_shape c cs with h0 | ⟨t, ht⟩
    · rw [h0]; rfl
    · rw [ht, List.dropWhile_cons, hc]
      simp only [Bool.false_eq_true, if_false]
      rw [← ht, stripRightList_idem]

/-! ## The two tokenizers agree -/

theorem findWordsAux_eq_runsOf (cs : List Char) : ∀ acc : List Char,
    findWordsAux cs acc =
      if acc.isEmpty then runsOf isPyWordChar cs
      else glueRun acc cs (runsOf isPyWordChar cs) := by
  induction cs with
  | nil =>
    intro acc
    cases acc with
    | nil => rfl
    | cons a as => rfl
  | cons c cs ih =>
    intro acc
    by_cases hc : isPyWordChar c
    · have step : findWordsAux (c :: cs) acc = findWordsAux cs (c :: acc) := by
        cases acc <;> simp [findWordsAux, hc]
      rw [step, ih (c :: acc)]
      cases acc with
      | nil =>
        simp only [List.isEmpty_cons, glueRun, List.reverse_cons, List.reverse_nil,
          List.nil_append]
        cases cs with
        | nil => simp [runsOf, hc]
        | cons c2 cs2 =>
          by_cases hc2 : isPyWordChar c2
          · simp [runsOf, hc, hc2]
          · simp [runsOf, hc, hc2]
      | cons a as =>
        simp only [List.isEmpty_cons, glueRun, List.reverse_cons]
        cases cs with
        | nil => simp [runsOf, hc]
        | cons c2 cs2 =>
          by_cases hc2 : isPyWordChar c2
          · simp [runsOf, hc, hc2, List.append_assoc]
          · simp [runsOf, hc, hc2]
    · cases acc with
      | nil =>
        simp only [findWordsAux, hc, Bool.false_eq_true, if_false, List.isEmpty_nil]
        rw [ih []]
        simp [runsOf, hc]
      | cons a as =>
        simp only [findWordsAux, hc, Bool.false_eq_true, if_false, List.isEmpty_cons,
          glueRun]
        rw [ih []]
        simp [runsOf, hc]

/-- The scan `re.findall(r'\b\w+\b', s)` returns exactly the maximal `\w`-runs. -/
theorem findWords_eq_runsOf (s : String) :
    findWords s = (runsOf isPyWordChar s.data).map (fun l => (⟨l⟩ : String)) := by
  unfold findWords
  rw [findWordsAux_eq_runsOf s.data []]
  rfl

/-! ## Lemmas about runs, counting and ranking -/

theorem runsOf_cons_skip (wc : Char → Bool) (c : Char) (cs : List Char)
    (hc : wc c = false) : runsOf wc (c :: cs) = runsOf wc cs := by
  simp [runsOf, hc]

theorem runsOf_singleton (wc : Char → Bool) (c : Char) (hc : wc c = true) :
    runsOf wc [c] = [[c]] := by
  simp [runsOf, hc]

theorem runsOf_cons2_join (wc : Char → Bool) (c c2 : Char) (cs : List Char)
    (hc : wc c = true) (hc2 : wc c2 = true) :
    runsOf wc (c :: c2 :: cs) =
      (c :: (runsOf wc (c2 :: cs)).headD []) :: (runsOf wc (c2 :: cs)).tail := by
  conv_lhs => rw [runsOf]
  simp [hc, hc2]

theorem runsOf_cons2_break (wc : Char → Bool) (c c2 : Char) (cs : List Char)
    (hc : wc c = true) (hc2 : wc c2 = false) :
    runsOf wc (c :: c2 :: cs) = [c] :: runsOf wc (c2 :: cs) := by
  conv_lhs => rw [runsOf]
  simp [hc, hc2]

/-- Every character of every run satisfies any property all input
characters satisfy. -/
theorem runsOf_chars (wc : Char → Bool) (P : Char → Prop) :
    ∀ cs : List Char, (∀ c ∈ cs, P c) → ∀ l ∈ runsOf wc cs, ∀ c ∈ l, P c := by
  intro cs
  induction cs with
  | nil => intro _ l hl; simp [runsOf] at hl
  | cons c cs ih =>
    intro hP l hl d hd
    have hPc : P c := hP c (by simp)
    have hPcs : ∀ x ∈ cs, P x := fun x hx => hP x (by simp [hx])
    by_cases hc : wc c
    · cases cs with
      | nil =>
        rw [runsOf_singleton wc c hc] at hl
        simp only [List.mem_singleton] at hl
        subst hl
        simp only [List.mem_singleton] at hd
        subst hd; exact hPc
      | cons c2 cs2 =>
        by_cases hc2 : wc c2
        · rw [runsOf_cons2_join wc c c2 cs2 hc hc2] at hl
          rcases List.mem_cons.mp hl with rfl | hl2
          · rcases List.mem_cons.mp hd with rfl | hd2
            · exact hPc
            · cases hrest : runsOf wc (c2 :: cs2) with
              | nil => rw [hrest] at hd2; simp at hd2
              | cons h t =>
                rw [hrest] at hd2
                exact ih hPcs h (by rw [hrest]; exact List.mem_cons_self _ _) d hd2
          · have hl3 : l ∈ runsOf wc (c2 :: cs2) := by
              cases hrest : runsOf wc (c2 :: cs2) with
              | nil => rw [hrest] at hl2; simp at hl2
              | cons h t =>
                rw [hrest] at hl2
                simp only [List.tail_cons] at hl2
                exact List.mem_cons_of_mem _ hl2
            exact ih hPcs l hl3 d hd
        · rw [runsOf_cons2_break wc c c2 cs2 hc (by simpa using hc2)] at hl
          rcases List.mem_cons.mp hl with rfl | hl2
          · simp only [List.mem_singleton] at hd; subst hd; exact hPc
          · exact ih hPcs l hl2 d hd
    · rw [runsOf_cons_skip wc c cs (by simpa using hc)] at hl
      exact ih hPcs l hl d hd

/-- Every character of every run is a `wc`-character. -/
theorem runsOf_wordchars (wc : Char → Bool) :
    ∀ cs : List Char, ∀ l ∈ runsOf wc cs, ∀ c ∈ l, wc c = true := by
  intro cs
  induction cs with
  | nil => intro l hl; simp [runsOf] at hl
  | cons c cs ih =>
    intro l hl d hd
    by_cases hc : wc c
    · cases cs with
      | nil =>
        rw [runsOf_singleton wc c hc] at hl
        simp only [List.mem_singleton] at hl
        subst hl
        simp only [List.mem_singleton] at hd
        subst hd; exact hc
      | cons c2 cs2 =>
        by_cases hc2 : wc c2
        · rw [runsOf_cons2_join wc c c2 cs2 hc hc2] at hl
          rcases List.mem_cons.mp hl with rfl | hl2
          · rcases List.mem_cons.mp hd with rfl | hd2
            · exact hc
            · cases hrest : runsOf wc (c2 :: cs2) with
              | nil => rw [hrest] at hd2; simp at hd2
              | cons h t =>
                rw [hrest] at hd2
                exact ih h (by rw [hrest]; exact List.mem_cons_self _ _) d hd2
          · have hl3 : l ∈ runsOf wc (c2 :: cs2) := by
              cases hrest : runsOf wc (c2 :: cs2) with
              | nil => rw [hrest] at hl2; simp at hl2
              | cons h t =>
                rw [hrest] at hl2
                simp only [List.tail_cons] at hl2
                exact List.mem_cons_of_mem _ hl2
            exact ih l hl3 d hd
        · rw [runsOf_cons2_break wc c c2 cs2 hc (by simpa using hc2)] at hl
          rcases List.mem_cons.mp hl with rfl | hl2
          · simp only [List.mem_singleton] at hd; subst hd; exact hc
          · exact ih l hl2 d hd
    · rw [runsOf_cons_skip wc c cs (by simpa using hc)] at hl
      exact ih l hl d hd

theorem mem_firstSeenAux {w : String} :
    ∀ (ws seen : List String), w ∈ firstSeenAux seen ws →
      w ∈ ws ∧ seen.contains w = false := by
  intro ws
  induction ws with
  | nil => intro seen h; simp [firstSeenAux] at h
  | cons x xs ih =>
    intro seen h
    simp only [firstSeenAux] at h
    by_cases hx : seen.contains x
    · rw [if_pos hx] at h
      obtain ⟨hmem, hsee⟩ := ih seen h
      exact ⟨List.mem_cons_of_mem _ hmem, hsee⟩
    · rw [if_neg hx] at h
      rcases List.mem_cons.mp h with rfl | h2
      · exact ⟨List.mem_cons_self _ _, by simpa using hx⟩
      · obtain ⟨hmem, hsee⟩ := ih (x :: seen) h2
        refine ⟨List.mem_cons_of_mem _ hmem, ?_⟩
        simp only [List.contains_cons, Bool.or_eq_false_iff] at hsee
        exact hsee.2

theorem firstSeenAux_nodup : ∀ (ws seen : List String), (firstSeenAux seen ws).Nodup := by
  intro ws
  induction ws with
  | nil => intro seen; simp [firstSeenAux]
  | cons x xs ih =>
    intro seen
    simp only [firstSeenAux]
    by_cases hx : seen.contains x
    · rw [if_pos hx]; exact ih seen
    · rw [if_neg hx]
      refine List.nodup_cons.mpr ⟨?_, ih (x :: seen)⟩
      intro hmem
      have := (mem_firstSeenAux xs (x :: seen) hmem).2
      simp at this

theorem firstSeen_nodup (ws : List String) : (firstSeen ws).Nodup :=
  firstSeenAux_nodup ws []

theorem firstSeen_subset {w : String} {ws : List String} (h : w ∈ firstSeen ws) :
    w ∈ ws :=
  (mem_firstSeenAux ws [] h).1

theorem insertByCount_perm (x : String × Nat) :
    ∀ l : List (String × Nat), List.Perm (insertByCount x l) (x :: l) := by
  intro l
  induction l with
  | nil => exact List.Perm.refl _
  | cons y ys ih =>
    simp only [insertByCount]
    by_cases hy : y.2 < x.2
    · rw [if_pos hy]
    · rw [if_neg hy]
      exact (List.Perm.cons y ih).trans (List.Perm.swap x y ys)

theorem foldl_insertByCount_perm :
    ∀ (l acc : List (String × Nat)),
      List.Perm (l.foldl (fun a x => insertByCount x a) acc) (acc ++ l) := by
  intro l
  induction l with
  | nil => intro acc; simp
  | cons x xs ih =>
    intro acc
    have h1 := ih (insertByCount x acc)
    have h2 : List.Perm (insertByCount x acc ++ xs) ((x :: acc) ++ xs) :=
      (insertByCount_perm x acc).append_right xs
    have h3 : List.Perm ((x :: acc) ++ xs) (acc ++ x :: xs) := List.perm_middle.symm
    exact (h1.trans h2).trans h3

theorem sortByCountDesc_perm (l : List (String × Nat)) :
    List.Perm (sortByCountDesc l) l := by
  simpa using foldl_insertByCount_perm l []

theorem isAsciiUpper_ofNat_shifted (m : Nat) (h1 : 65 ≤ m) (h2 : m ≤ 90) :
    isAsciiUpper (Char.ofNat (m + 32)) = false := by
  interval_cases m <;> decide

/-- Python `str.lower()` leaves no ASCII uppercase letter anywhere. -/
theorem isAsciiUpper_toLower (c : Char) : isAsciiUpper (Char.toLower c) = false := by
  show isAsciiUpper (if c.toNat ≥ 65 ∧ c.toNat ≤ 90 then Char.ofNat (c.toNat + 32) else c)
      = false
  by_cases h : c.toNat ≥ 65 ∧ c.toNat ≤ 90
  · rw [if_pos h]
    exact isAsciiUpper_ofNat_shifted _ h.1 h.2
  · rw [if_neg h]
    simp only [isAsciiUpper, Bool.and_eq_false_iff, decide_eq_false_iff_not]
    omega

theorem keepToken_eq (w : String) :
    keepToken w = (decide (3 ≤ w.length) && !(stop_words.contains w)) := by
  unfold keepToken
  exact Bool.and_comm _ _

/-- The code's analyzer is the spec's declarative analyzer taken at the
`\w` character class. -/
theorem get_top_keywords_eq_specAnalyzer (text : String) (n : Nat) :
    get_top_keywords text n = specAnalyzer isPyWordChar text n := by
  simp only [get_top_keywords, specAnalyzer, mostCommon, counter]
  rw [findWords_eq_runsOf]
  rw [List.filter_congr (fun x _ => keepToken_eq x)]

theorem get_top_keywords_mem {w text : String} {n : Nat}
    (h : w ∈ get_top_keywords text n) :
    w ∈ findWords (pyLower text) ∧ keepToken w = true := by
  unfold get_top_keywords mostCommon at h
  obtain ⟨p, hp, rfl⟩ := List.mem_map.mp h
  have hp2 : p ∈ sortByCountDesc (counter ((findWords (pyLower text)).filter keepToken)) :=
    (List.take_sublist _ _).subset hp
  have hp3 : p ∈ counter ((findWords (pyLower text)).filter keepToken) :=
    (sortByCountDesc_perm _).subset hp2
  unfold counter at hp3
  obtain ⟨x, hx, hpx⟩ := List.mem_map.mp hp3
  have hxf : x ∈ (findWords (pyLower text)).filter keepToken := firstSeen_subset hx
  rw [← hpx]
  exact ⟨(List.mem_filter.mp hxf).1, (List.mem_filter.mp hxf).2⟩

theorem mem_pyLower_not_upper {c : Char} {text : String}
    (h : c ∈ (pyLower text).data) : isAsciiUpper c = false := by
  unfold pyLower at h
  obtain ⟨d, _, rfl⟩ := List.mem_map.mp h
  exact isAsciiUpper_toLower d

/-- Every character of every keyword returned by the analyzer is a `\w`
character of the lower-cased text; in particular no ASCII uppercase letter
survives. -/
theorem get_top_keywords_chars {w text : String} {n : Nat}
    (h : w ∈ get_top_keywords text n) :
    ∀ c ∈ w.data, isPyWordChar c = true ∧ isAsciiUpper c = false := by
  have hw := (get_top_keywords_mem h).1
  rw [findWords_eq_runsOf] at hw
  obtain ⟨l, hl, rfl⟩ := List.mem_map.mp hw
  intro c hc
  refine ⟨runsOf_wordchars _ _ l hl c hc, ?_⟩
  exact runsOf_chars isPyWordChar (fun c => isAsciiUpper c = false)
    (pyLower text).data (fun d hd => mem_pyLower_not_upper hd) l hl c hc

theorem map_fst_counter (ws : List String) :
    (counter ws).map Prod.fst = firstSeen ws := by
  unfold counter
  generalize firstSeen ws = L
  induction L with
  | nil => rfl
  | cons x xs ih => simp only [List.map_cons, ih]

theorem get_top_keywords_nodup (text : String) (n : Nat) :
    (get_top_keywords text n).Nodup := by
  have h2 : (List.map Prod.fst
      (counter ((findWords (pyLower text)).filter keepToken))).Nodup := by
    rw [map_fst_counter]
    exact firstSeen_nodup ((findWords (pyLower text)).filter keepToken)
  have h1 : (List.map Prod.fst
      (sortByCountDesc (counter ((findWords (pyLower text)).filter keepToken)))).Nodup :=
    (((sortByCountDesc_perm _).map Prod.fst).nodup_iff).mpr h2
  show (List.map Prod.fst (List.take n
      (sortByCountDesc (counter ((findWords (pyLower text)).filter keepToken))))).Nodup
  exact List.Nodup.sublist ((List.take_sublist _ _).map _) h1

theorem get_top_keywords_length_le (text : String) (n : Nat) :
    (get_top_keywords text n).length ≤ n := by
  show (List.map Prod.fst (List.take n
      (sortByCountDesc (counter ((findWords (pyLower text)).filter keepToken))))).length ≤ n
  rw [List.length_map]
  exact List.length_take_le _ _

/-! ## Round-trip of the keyword payload through its stored form -/

theorem mk_data (s : String) : (⟨s.data⟩ : String) = s := rfl

theorem skipWs_nows (x : Char) (cs : List Char) (hx : isJsonWs x = false) :
    skipWs (x :: cs) = x :: cs := by
  simp [skipWs, hx]

theorem skipWs_ws (w : Char) (cs : List Char) (hw : isJsonWs w = true) :
    skipWs (w :: cs) = skipWs cs := by
  simp [skipWs, hw]

theorem expectChar_self (c : Char) (rest : List Char) (h : isJsonWs c = false) :
    expectChar c (c :: rest) = some rest := by
  unfold expectChar
  rw [skipWs_nows c rest h]
  simp

theorem expectChar_ne (c x : Char) (rest : List Char) (hx : isJsonWs x = false)
    (hne : x ≠ c) : expectChar c (x :: rest) = none := by
  unfold expectChar
  rw [skipWs_nows x rest hx]
  simp [hne]

theorem parseStrBody_append (s : List Char) (rest : List Char)
    (h : ∀ c ∈ s, c ≠ '"' ∧ c ≠ '\\') :
    parseStrBody (s ++ '"' :: rest) = some (s, rest) := by
  induction s with
  | nil => simp [parseStrBody]
  | cons c cs ih =>
    have hc := h c (by simp)
    show parseStrBody (c :: (cs ++ '"' :: rest)) = some (c :: cs, rest)
    simp only [parseStrBody]
    rw [if_neg hc.1, if_neg hc.2, ih (fun d hd => h d (by simp [hd]))]

theorem parseQuoted_exact (s : String) (rest : List Char)
    (hs : ∀ c ∈ s.data, c ≠ '"' ∧ c ≠ '\\') :
    parseQuoted ('"' :: (s.data ++ '"' :: rest)) = some (s, rest) := by
  unfold parseQuoted
  rw [expectChar_self '"' _ (by decide)]
  simp only []
  rw [parseStrBody_append s.data rest hs]

theorem joinItems_data (k : String) (ks : List String) :
    (joinItems (k :: ks)).data = '"' :: (k.data ++ '"' :: tailItems ks) := by
  induction ks generalizing k with
  | nil => simp [joinItems, quoteStr, tailItems]
  | cons y ys ih =>
    show (joinItems (k :: y :: ys)).data = _
    simp only [joinItems, quoteStr, String.data_append, ih y, tailItems]
    simp

theorem tailItems_length_ge (ks : List String) : ks.length ≤ (tailItems ks).length := by
  induction ks with
  | nil => simp [tailItems]
  | cons y ys ih =>
    simp only [tailItems, List.length_cons, List.length_append]
    omega

theorem parseMoreItems_tail (ks : List String) :
    ∀ (fuel : Nat) (acc : List String) (rest : List Char),
      ks.length < fuel →
      (∀ k ∈ ks, ∀ c ∈ k.data, c ≠ '"' ∧ c ≠ '\\') →
      parseMoreItems fuel acc (tailItems ks ++ ']' :: rest)
        = some (acc.reverse ++ ks, rest) := by
  induction ks with
  | nil =>
    intro fuel acc rest hf _
    cases fuel with
    | zero => omega
    | succ f =>
      simp only [tailItems, List.nil_append, parseMoreItems]
      rw [expectChar_self ']' rest (by decide)]
      simp
  | cons y ys ih =>
    intro fuel acc rest hf hk
    cases fuel with
    | zero => simp at hf
    | succ f =>
      have hy : ∀ c ∈ y.data, c ≠ '"' ∧ c ≠ '\\' := hk y (by simp)
      have hys : ∀ k ∈ ys, ∀ c ∈ k.data, c ≠ '"' ∧ c ≠ '\\' :=
        fun k hmem => hk k (by simp [hmem])
      simp only [parseMoreItems]
      rw [show tailItems (y :: ys) ++ ']' :: rest
            = ',' :: ' ' :: '"' :: (y.data ++ '"' :: (tailItems ys ++ ']' :: rest))
          by simp [tailItems]]
      rw [expectChar_ne ']' ',' _ (by decide) (by decide)]
      simp only []
      rw [expectChar_self ',' _ (by decide)]
      simp only []
      rw [show parseQuoted (' ' :: '"' :: (y.data ++ '"' :: (tailItems ys ++ ']' :: rest)))
            = parseQuoted ('"' :: (y.data ++ '"' :: (tailItems ys ++ ']' :: rest)))
          by unfold parseQuoted; rw [show expectChar '"' (' ' :: '"' :: (y.data ++ '"' :: (tailItems ys ++ ']' :: rest))) = expectChar '"' ('"' :: (y.data ++ '"' :: (tailItems ys ++ ']' :: rest))) by unfold expectChar; rw [skipWs_ws ' ' _ (by decide)]]]
      rw [parseQuoted_exact y _ hy]
      simp only []
      rw [ih f (y :: acc) rest (by simpa using hf) hys]
      simp

theorem parseStrArray_serialized (ks : List String) (cs rest : List Char)
    (hskip : skipWs cs = '[' :: ((joinItems ks).data ++ ']' :: rest))
    (hk : ∀ k ∈ ks, ∀ c ∈ k.data, c ≠ '"' ∧ c ≠ '\\') :
    parseStrArray cs = some (ks, rest) := by
  have h1 : expectChar '[' cs = some ((joinItems ks).data ++ ']' :: rest) := by
    unfold expectChar
    rw [hskip]
    simp
  unfold parseStrArray
  rw [h1]
  simp only []
  cases ks with
  | nil =>
    rw [show (joinItems []).data ++ ']' :: rest = ']' :: rest by simp [joinItems]]
    rw [expectChar_self ']' rest (by decide)]
  | cons k ks2 =>
    have hkk : ∀ c ∈ k.data, c ≠ '"' ∧ c ≠ '\\' := hk k (by simp)
    have hks2 : ∀ x ∈ ks2, ∀ c ∈ x.data, c ≠ '"' ∧ c ≠ '\\' :=
      fun x hmem => hk x (by simp [hmem])
    rw [show (joinItems (k :: ks2)).data ++ ']' :: rest
          = '"' :: (k.data ++ '"' :: (tailItems ks2 ++ ']' :: rest))
        by rw [joinItems_data]; simp]
    rw [expectChar_ne ']' '"' _ (by decide) (by decide)]
    simp only []
    rw [parseQuoted_exact k _ hkk]
    simp only []
    have hfuel : ks2.length < (tailItems ks2 ++ ']' :: rest).length + 1 := by
      have h2 := tailItems_length_ge ks2
      simp only [List.length_append, List.length_cons]
      omega
    rw [parseMoreItems_tail ks2 _ [k] rest hfuel hks2]
    simp

/-- Writing a keyword list with `KeywordInsight(...).json()` and reading it
back with `KeywordInsight.parse_raw` yields the same list, provided no
keyword contains a quote or backslash character. -/
theorem parseKeywordInsight_roundtrip (ks : List String)
    (hk : ∀ k ∈ ks, ∀ c ∈ k.data, c ≠ '"' ∧ c ≠ '\\') :
    parseKeywordInsight (keywordInsightJson ks) = some ks := by
  unfold parseKeywordInsight keywordInsightJson
  rw [show ("\x7b\"top_keywords\": [" ++ joinItems ks ++ "]\x7d").data
        = '\x7b' :: '"' :: (("top_keywords" : String).data
            ++ '"' :: ':' :: ' ' :: '[' :: ((joinItems ks).data ++ ']' :: '\x7d' :: []))
      by simp]
  rw [expectChar_self '\x7b' _ (by decide)]
  simp only []
  rw [parseQuoted_exact "top_keywords" _ (by decide)]
  simp only []
  simp only [if_true]
  rw [expectChar_self ':' _ (by decide)]
  simp only []
  rw [parseStrArray_serialized ks (' ' :: '[' :: ((joinItems ks).data ++ ']' :: '\x7d' :: []))
        ('\x7d' :: [])
        ((skipWs_ws ' ' _ (by decide)).trans (skipWs_nows '[' _ (by decide))) hk]
  simp only []
  rw [expectChar_self '\x7d' [] (by decide)]
  simp only []
  rw [show skipWs ([] : List Char) = [] from rfl, if_pos rfl]

/-! ## The summarizer client only succeeds with stripped, non-empty text -/

theorem pyStripAttr_ok {v : Json} {t : String} (h : pyStripAttr v = .ok t) :
    ∃ c, t = pyStrip c := by
  cases v with
  | str s =>
    simp only [pyStripAttr, Except.ok.injEq] at h
    exact ⟨s, h.symm⟩
  | null => simp [pyStripAttr] at h
  | bool b => simp [pyStripAttr] at h
  | num n => simp [pyStripAttr] at h
  | arr es => simp [pyStripAttr] at h
  | obj fs => simp [pyStripAttr] at h

theorem extractSummary_ok {data : Json} {t : String}
    (h : extractSummary data = .ok t) : ∃ c, t = pyStrip c := by
  unfold extractSummary at h
  cases h1 : pyDictGet data "choices" (Json.arr [Json.obj []]) with
  | error e => rw [h1] at h; simp at h
  | ok choices =>
    rw [h1] at h
    simp only [] at h
    cases h2 : pyIndexZero choices with
    | error e => rw [h2] at h; simp at h
    | ok first =>
      rw [h2] at h
      simp only [] at h
      cases h3 : pyDictGet first "message" (Json.obj []) with
      | error e => rw [h3] at h; simp at h
      | ok message =>
        rw [h3] at h
        simp only [] at h
        cases h4 : pyDictGet message "content" (Json.str "") with
        | error e => rw [h4] at h; simp at h
        | ok content =>
          rw [h4] at h
          simp only [] at h
          exact pyStripAttr_ok h

/-- If the client returns `some s`, then `s` is non-empty and equal to its
own strip (no leading or trailing whitespace). -/
theorem summaryOfOutcome_ret_some {o : HttpOutcome} {s : String}
    (h : summaryOfOutcome o = .ret (some s)) : s ≠ "" ∧ pyStrip s = s := by
  cases o with
  | networkError => simp [summaryOfOutcome] at h
  | timeout => simp [summaryOfOutcome] at h
  | response status body =>
    unfold summaryOfOutcome at h
    simp only [] at h
    by_cases hst : 400 ≤ status ∧ status < 600
    · rw [if_pos hst] at h; simp at h
    · rw [if_neg hst] at h
      cases body with
      | none => simp at h
      | some data =>
        simp only [] at h
        cases h2 : extractSummary data with
        | error e => rw [h2] at h; simp at h
        | ok u =>
          rw [h2] at h
          simp only [] at h
          by_cases hu : u = ""
          · rw [if_pos hu] at h; simp at h
          · rw [if_neg hu] at h
            have hus : u = s := by
              have := h
              injection this with h5
              injection h5
            subst hus
            obtain ⟨c, rfl⟩ := extractSummary_ok h2
            exact ⟨hu, pyStrip_idem c⟩

/-! ## Keywords contain no quote or backslash -/

theorem isPyWordChar_not_quote {c : Char} (h : isPyWordChar c = true) :
    c ≠ '"' ∧ c ≠ '\\' := by
  constructor
  · rintro rfl
    exact absurd h (by decide)
  · rintro rfl
    exact absurd h (by decide)

theorem get_top_keywords_plain (text : String) (n : Nat) :
    ∀ k ∈ get_top_keywords text n, ∀ c ∈ k.data, c ≠ '"' ∧ c ≠ '\\' :=
  fun _ hk c hc => isPyWordChar_not_quote ((get_top_keywords_chars hk c hc).1)

/-! ## `find?` over an appended store -/

theorem find?_append_none {α : Type} {p : α → Bool} {l1 l2 : List α}
    (h : ∀ r ∈ l1, p r = false) :
    List.find? p (l1 ++ l2) = List.find? p l2 := by
  induction l1 with
  | nil => rfl
  | cons r rs ih =>
    show List.find? p (r :: (rs ++ l2)) = List.find? p l2
    rw [List.find?_cons_of_neg _ (by simp [h r (by simp)])]
    exact ih (fun x hx => h x (by simp [hx]))

/-! ## Characterization of `upload_resume` past the guards -/

/-- Once the extension check, the file save and the text extraction succeed
on non-empty text, the endpoint is determined by the summarizer outcome:
exactly one request is attempted, then either the AI record, the keyword
record, or (for an uncaught parse exception) a crash with nothing stored. -/
theorem upload_resume_eq (inp : UploadInput) (store : List Row) (text : String)
    (hpdf : pyEndsWith (pyLower inp.filename) ".pdf" = true)
    (hsave : inp.saveOk = true)
    (hext : inp.extracted = some text)
    (hne : text ≠ "") :
    upload_resume inp store =
      match summaryOfOutcome (inp.respond (mkApiCall inp.apiKeyEnv text)) with
      | .crash e => (.crash e, store, [mkApiCall inp.apiKeyEnv text])
      | .ret (some s) =>
        (.ok ⟨inp.docId, inp.filename, (inp.fileSizeBytes : Rat) / (1024 * 1024),
              inp.uploadTime, "AI", .ai s⟩,
         store ++ [⟨inp.docId, inp.filename, (inp.fileSizeBytes : Rat) / (1024 * 1024),
              inp.uploadTime, "AI", s⟩],
         [mkApiCall inp.apiKeyEnv text])
      | .ret none =>
        (.ok ⟨inp.docId, inp.filename, (inp.fileSizeBytes : Rat) / (1024 * 1024),
              inp.uploadTime, "Keyword", .keyword (get_top_keywords text 5)⟩,
         store ++ [⟨inp.docId, inp.filename, (inp.fileSizeBytes : Rat) / (1024 * 1024),
              inp.uploadTime, "Keyword", keywordInsightJson (get_top_keywords text 5)⟩],
         [mkApiCall inp.apiKeyEnv text]) := by
  unfold upload_resume get_ai_summary
  simp only [hpdf, hsave, hext, Bool.not_true, Bool.false_eq_true, if_false]
  rw [if_neg hne]
  cases summaryOfOutcome (inp.respond (mkApiCall inp.apiKeyEnv text)) with
  | crash e => rfl
  | ret o => cases o <;> rfl

theorem decodeInsights_keyword (ks : List String)
    (hp : ∀ k ∈ ks, ∀ c ∈ k.data, c ≠ '"' ∧ c ≠ '\\') :
    decodeInsights "Keyword" (keywordInsightJson ks) = some (.keyword ks) := by
  unfold decodeInsights
  rw [if_pos rfl, parseKeywordInsight_roundtrip ks hp]
  rfl

theorem decodeInsights_ai (pb s : String) (h : ¬ pb = "Keyword") :
    decodeInsights pb s = some (.ai s) := by
  unfold decodeInsights
  rw [if_neg h]

/-! ## The claims -/

/-- C1, counterexample: an upload whose summarizer call fails with a
malformed 200 body (`choices: []`) does not produce the Keyword record the
claim promises — the endpoint crashes with an uncaught `IndexError` and
nothing is persisted. -/
theorem C1_counterexample :
    upload_resume inpCrash []
      = (.crash .indexError, [],
         [mkApiCall (some "env-key") "cat cat dog dog dog bird"]) ∧
    uploadStatus (upload_resume inpCrash []).1 = none ∧
    (upload_resume inpCrash []).2.1 = [] :=
  ⟨rfl, rfl, rfl⟩

/-- C1 (amended): for an upload whose text extraction succeeds, exactly one
summarizer request is attempted; if the client call returns a summary `s`
the persisted and returned record is `AI` with insights `s`, and if it
returns the failure signal `None` the record is `Keyword` with the
analyzer's output on the same text.  (A malformed response body that
crashes the client instead aborts the upload, per the counterexample.) -/
theorem C1_amended (inp : UploadInput) (store : List Row) (text : String)
    (hpdf : pyEndsWith (pyLower inp.filename) ".pdf" = true)
    (hsave : inp.saveOk = true)
    (hext : inp.extracted = some text)
    (hne : text ≠ "") :
    (upload_resume inp store).2.2 = [mkApiCall inp.apiKeyEnv text] ∧
    (∀ s, summaryOfOutcome (inp.respond (mkApiCall inp.apiKeyEnv text)) = .ret (some s) →
      upload_resume inp store =
        (.ok ⟨inp.docId, inp.filename, (inp.fileSizeBytes : Rat) / (1024 * 1024),
              inp.uploadTime, "AI", .ai s⟩,
         store ++ [⟨inp.docId, inp.filename, (inp.fileSizeBytes : Rat) / (1024 * 1024),
              inp.uploadTime, "AI", s⟩],
         [mkApiCall inp.apiKeyEnv text])) ∧
    (summaryOfOutcome (inp.respond (mkApiCall inp.apiKeyEnv text)) = .ret none →
      upload_resume inp store =
        (.ok ⟨inp.docId, inp.filename, (inp.fileSizeBytes : Rat) / (1024 * 1024),
              inp.uploadTime, "Keyword", .keyword (get_top_keywords text 5)⟩,
         store ++ [⟨inp.docId, inp.filename, (inp.fileSizeBytes : Rat) / (1024 * 1024),
              inp.uploadTime, "Keyword", keywordInsightJson (get_top_keywords text 5)⟩],
         [mkApiCall inp.apiKeyEnv text])) := by
  have heq := upload_resume_eq inp store text hpdf hsave hext hne
  refine ⟨?_, ?_, ?_⟩
  · rw [heq]
    cases summaryOfOutcome (inp.respond (mkApiCall inp.apiKeyEnv text)) with
    | crash e => rfl
    | ret o => cases o <;> rfl
  · intro s hs
    rw [heq, hs]
  · intro hs
    rw [heq, hs]

/-- C1 (amended), witness at a concrete keyword-fallback upload. -/
theorem C1_amended_witness :
    upload_resume inpNoKey []
      = (.ok ⟨"doc-4", "resume.pdf", ((1048576 : Nat) : Rat) / (1024 * 1024),
              "2024-01-04T00:00:00", "Keyword",
              .keyword (get_top_keywords "cat cat dog dog dog bird" 5)⟩,
         [⟨"doc-4", "resume.pdf", ((1048576 : Nat) : Rat) / (1024 * 1024),
           "2024-01-04T00:00:00", "Keyword",
           keywordInsightJson (get_top_keywords "cat cat dog dog dog bird" 5)⟩],
         [mkApiCall none "cat cat dog dog dog bird"]) :=
  (C1_amended inpNoKey [] "cat cat dog dog dog bird" rfl rfl rfl (by decide)).2.2 rfl

/-- C2, counterexample: the claim's tokenization ("alphanumeric runs")
disagrees with the code's `\w` runs on an underscored input: the code keeps
the token `x_y`, the spec-worded analyzer drops everything. -/
theorem C2_counterexample :
    get_top_keywords "x_y" 5 = ["x_y"] ∧
    specAnalyzer Char.isAlphanum "x_y" 5 = [] ∧
    get_top_keywords "x_y" 5 ≠ specAnalyzer Char.isAlphanum "x_y" 5 :=
  ⟨rfl, rfl, by decide⟩

/-- C2 (amended): the analyzer is exactly the spec's ranking pipeline with
tokenization into maximal runs of word characters (alphanumeric OR
underscore, Python `\w`); the claim's golden example holds as stated. -/
theorem C2_amended :
    (∀ (text : String) (n : Nat),
      get_top_keywords text n = specAnalyzer isPyWordChar text n) ∧
    get_top_keywords "cat cat dog dog dog bird" 5 = ["dog", "cat", "bird"] :=
  ⟨get_top_keywords_eq_specAnalyzer, rfl⟩

/-- C3, counterexample: a `.pdf` upload whose extracted text is empty is
rejected with status 500, not the claimed 400 (the store is untouched). -/
theorem C3_counterexample :
    pyEndsWith (pyLower inpEmptyText.filename) ".pdf" = true ∧
    inpEmptyText.extracted = some "" ∧
    uploadStatus (upload_resume inpEmptyText []).1 = some 500 ∧
    uploadStatus (upload_resume inpEmptyText []).1 ≠ some 400 ∧
    (upload_resume inpEmptyText []).2.1 = [] :=
  ⟨rfl, rfl, rfl, by decide, rfl⟩

/-- C3 (amended): a non-PDF filename is rejected with 400 and an empty
extracted text with 500; in both cases the store is unchanged and no HTTP
call is attempted. -/
theorem C3_amended (inp : UploadInput) (store : List Row) :
    (pyEndsWith (pyLower inp.filename) ".pdf" = false →
      upload_resume inp store
        = (.httpError 400 "Invalid file type. Please upload a PDF.", store, [])) ∧
    (pyEndsWith (pyLower inp.filename) ".pdf" = true → inp.saveOk = true →
      inp.extracted = some "" →
      upload_resume inp store
        = (.httpError 500 "PDF is empty or text could not be extracted.", store, [])) := by
  constructor
  · intro h
    unfold upload_resume
    simp [h]
  · intro hpdf hsave hext
    unfold upload_resume
    simp [hpdf, hsave, hext]

/-- C3 (amended), witness: the two rejection branches at concrete inputs. -/
theorem C3_amended_witness :
    upload_resume inpTxt []
      = (.httpError 400 "Invalid file type. Please upload a PDF.", [], []) ∧
    upload_resume inpEmptyText []
      = (.httpError 500 "PDF is empty or text could not be extracted.", [], []) :=
  ⟨(C3_amended inpTxt []).1 rfl, (C3_amended inpEmptyText []).2 rfl rfl rfl⟩

/-- C4 (code bug): one corrupt Keyword row makes the whole history listing
crash — the well-formed row `rowGood` is not returned — although the same
store without the corrupt row lists fine. -/
theorem C4_bug_eval :
    get_history [rowGood, rowCorrupt] = .crash ∧
    get_history [rowGood] = .ok [rowToDoc rowGood (.keyword ["dog"])] :=
  ⟨rfl, rfl⟩

/-- C5, counterexample: with no API key in the environment the request is
still attempted — exactly one HTTP call is made, carrying the hardcoded
default key in its `Authorization` header. -/
theorem C5_counterexample :
    inpNoKey.apiKeyEnv = none ∧
    (upload_resume inpNoKey []).2.2
      = [⟨SARVAM_API_URL, "Bearer " ++ SARVAM_DEFAULT_KEY,
          summaryPrompt "cat cat dog dog dog bird"⟩] ∧
    ([⟨SARVAM_API_URL, "Bearer " ++ SARVAM_DEFAULT_KEY,
       summaryPrompt "cat cat dog dog dog bird"⟩] : List ApiCall) ≠ [] :=
  ⟨rfl, rfl, by simp⟩

/-- C5 (amended): when the key is absent the hardcoded default key is used
and the HTTP request is still attempted (exactly once); if that request
fails with the uniform failure signal, the upload degrades to the keyword
fallback without crashing. -/
theorem C5_amended (inp : UploadInput) (store : List Row) (text : String)
    (hkey : inp.apiKeyEnv = none)
    (hpdf : pyEndsWith (pyLower inp.filename) ".pdf" = true)
    (hsave : inp.saveOk = true)
    (hext : inp.extracted = some text)
    (hne : text ≠ "") :
    (upload_resume inp store).2.2
      = [⟨SARVAM_API_URL, "Bearer " ++ SARVAM_DEFAULT_KEY, summaryPrompt text⟩] ∧
    (summaryOfOutcome (inp.respond (mkApiCall none text)) = .ret none →
      ∃ doc, (upload_resume inp store).1 = .ok doc ∧
        doc.processed_by = "Keyword" ∧
        doc.insights = .keyword (get_top_keywords text 5)) := by
  have heq := upload_resume_eq inp store text hpdf hsave hext hne
  rw [hkey] at heq
  constructor
  · rw [heq]
    cases summaryOfOutcome (inp.respond (mkApiCall none text)) with
    | crash e => rfl
    | ret o => cases o <;> rfl
  · intro hnone
    rw [heq, hnone]
    exact ⟨_, rfl, rfl, rfl⟩

/-- C5 (amended), witness at the concrete keyless upload. -/
theorem C5_amended_witness :
    (upload_resume inpNoKey []).2.2
      = [⟨SARVAM_API_URL, "Bearer " ++ SARVAM_DEFAULT_KEY,
          summaryPrompt "cat cat dog dog dog bird"⟩] ∧
    ∃ doc, (upload_resume inpNoKey []).1 = .ok doc ∧
      doc.processed_by = "Keyword" ∧
      doc.insights = .keyword (get_top_keywords "cat cat dog dog dog bird" 5) := by
  have h := C5_amended inpNoKey [] "cat cat dog dog dog bird" rfl rfl rfl rfl (by decide)
  exact ⟨h.1, h.2 rfl⟩

/-- C6 (code bug): a 200 response whose `choices` field is an empty list
crashes the client with an uncaught `IndexError` instead of the uniform
failure signal; the failure modes the code does catch all yield `None`. -/
theorem C6_bug_eval :
    summaryOfOutcome (.response 200 (some emptyChoicesBody)) = .crash .indexError ∧
    summaryOfOutcome .networkError = .ret none ∧
    summaryOfOutcome .timeout = .ret none ∧
    summaryOfOutcome (.response 503 none) = .ret none ∧
    summaryOfOutcome (.response 404 (some (goodSummaryBody "hi"))) = .ret none ∧
    get_ai_summary (some "env-key")
        (fun _ => .response 200 (some emptyChoicesBody)) "text"
      = (.crash .indexError, [mkApiCall (some "env-key") "text"]) :=
  ⟨rfl, rfl, rfl, rfl, rfl, rfl⟩

/-- C7: a record written by the upload pipeline's insert and read back via
`getById` on its id decodes to the same document — same id, filename,
filesize, upload date, provenance and structurally equal insights. -/
theorem C7_roundtrip (inp : UploadInput) (store : List Row) (text : String)
    (hpdf : pyEndsWith (pyLower inp.filename) ".pdf" = true)
    (hsave : inp.saveOk = true)
    (hext : inp.extracted = some text)
    (hne : text ≠ "")
    (hfresh : ∀ r ∈ store, r.id ≠ inp.docId)
    (doc : Document) (store2 : List Row) (calls : List ApiCall)
    (hrun : upload_resume inp store = (.ok doc, store2, calls)) :
    get_insights store2 inp.docId = .ok doc := by
  have heq := upload_resume_eq inp store text hpdf hsave hext hne
  rw [hrun] at heq
  have hfind : ∀ (row : Row), row.id = inp.docId →
      List.find? (fun r => r.id == inp.docId) (store ++ [row]) = some row := by
    intro row hrow
    rw [find?_append_none (fun r hr => by simpa using hfresh r hr)]
    simp [List.find?, hrow]
  cases ho : summaryOfOutcome (inp.respond (mkApiCall inp.apiKeyEnv text)) with
  | crash e =>
    rw [ho] at heq
    simp at heq
  | ret o =>
    rw [ho] at heq
    cases o with
    | some s =>
      simp only [Prod.mk.injEq, UploadResult.ok.injEq] at heq
      obtain ⟨hdoc, hstore2, hcalls⟩ := heq
      subst hdoc
      subst hstore2
      unfold get_insights
      rw [hfind _ rfl]
      simp only []
      rw [decodeInsights_ai "AI" s (by decide)]
      rfl
    | none =>
      simp only [Prod.mk.injEq, UploadResult.ok.injEq] at heq
      obtain ⟨hdoc, hstore2, hcalls⟩ := heq
      subst hdoc
      subst hstore2
      unfold get_insights
      rw [hfind _ rfl]
      simp only []
      rw [decodeInsights_keyword _ (get_top_keywords_plain text 5)]
      rfl

/-- C7, witness: the concrete keyword-fallback upload reads back intact. -/
theorem C7_roundtrip_witness :
    get_insights (upload_resume inpNoKey []).2.1 "doc-4"
      = .ok ⟨"doc-4", "resume.pdf", ((1048576 : Nat) : Rat) / (1024 * 1024),
             "2024-01-04T00:00:00", "Keyword",
             .keyword (get_top_keywords "cat cat dog dog dog bird" 5)⟩ :=
  C7_roundtrip inpNoKey [] "cat cat dog dog dog bird" rfl rfl rfl (by decide)
    (by simp) _ _ _ rfl

/-- C8: the history listing of three well-formed records with increasing
upload timestamps returns all three, newest first. -/
theorem C8_history_order (r1 r2 r3 : Row) (ins1 ins2 ins3 : Insights)
    (hd12 : strLtb r1.upload_date r2.upload_date = true)
    (hd23 : strLtb r2.upload_date r3.upload_date = true)
    (h1 : decodeInsights r1.processed_by r1.insights = some ins1)
    (h2 : decodeInsights r2.processed_by r2.insights = some ins2)
    (h3 : decodeInsights r3.processed_by r3.insights = some ins3) :
    get_history [r1, r2, r3]
      = .ok [rowToDoc r3 ins3, rowToDoc r2 ins2, rowToDoc r1 ins1] := by
  have hsort : sortRowsByDateDesc [r1, r2, r3] = [r3, r2, r1] := by
    show insertRowDesc r3 (insertRowDesc r2 (insertRowDesc r1 [])) = [r3, r2, r1]
    rw [show insertRowDesc r1 [] = [r1] from rfl]
    rw [show insertRowDesc r2 [r1] = [r2, r1] by unfold insertRowDesc; rw [if_pos hd12]]
    unfold insertRowDesc
    rw [if_pos hd23]
  unfold get_history
  rw [hsort]
  simp [decodeAllRows, h1, h2, h3]

/-- C8, witness at three concrete rows. -/
theorem C8_history_order_witness :
    get_history [rowT1, rowT2, rowT3]
      = .ok [rowToDoc rowT3 (.keyword []), rowToDoc rowT2 (.ai "A nice summary."),
             rowToDoc rowT1 (.keyword ["dog"])] :=
  C8_history_order rowT1 rowT2 rowT3 (.keyword ["dog"]) (.ai "A nice summary.")
    (.keyword []) (by decide) (by decide) rfl rfl rfl

/-- C9: every record the upload pipeline produces with provenance `AI`
carries a non-empty summary string equal to its own strip (no leading or
trailing whitespace), both in the response and in the stored row. -/
theorem C9_ai_insights_stripped (inp : UploadInput) (store : List Row)
    (doc : Document) (store2 : List Row) (calls : List ApiCall)
    (hrun : upload_resume inp store = (.ok doc, store2, calls))
    (hAI : doc.processed_by = "AI") :
    ∃ s, doc.insights = .ai s ∧ s ≠ "" ∧ pyStrip s = s ∧
      store2 = store ++ [⟨inp.docId, inp.filename,
        (inp.fileSizeBytes : Rat) / (1024 * 1024), inp.uploadTime, "AI", s⟩] := by
  unfold upload_resume at hrun
  split at hrun
  · simp at hrun
  · split at hrun
    · simp at hrun
    · split at hrun
      · simp at hrun
      · split at hrun
        · simp at hrun
        · split at hrun
          · simp at hrun
          · -- AI branch
            rename_i hclient
            simp only [Prod.mk.injEq, UploadResult.ok.injEq] at hrun
            obtain ⟨hdoc, hstore2, hcalls⟩ := hrun
            subst hdoc
            subst hstore2
            unfold get_ai_summary at hclient
            have hsum := congrArg Prod.fst hclient
            simp only [] at hsum
            obtain ⟨hs1, hs2⟩ := summaryOfOutcome_ret_some hsum
            exact ⟨_, rfl, hs1, hs2, rfl⟩
          · -- Keyword branch contradicts processed_by = "AI"
            simp only [Prod.mk.injEq, UploadResult.ok.injEq] at hrun
            obtain ⟨hdoc, hstore2, hcalls⟩ := hrun
            subst hdoc
            simp at hAI

/-- C9, witness at a concrete successful AI upload. -/
theorem C9_ai_insights_stripped_witness :
    ∃ s, (Insights.ai "A concise summary.") = .ai s ∧ s ≠ "" ∧ pyStrip s = s ∧
      [(⟨"doc-5", "resume.pdf", ((1048576 : Nat) : Rat) / (1024 * 1024),
         "2024-01-05T00:00:00", "AI", "A concise summary."⟩ : Row)]
        = [] ++ [⟨"doc-5", "resume.pdf", ((1048576 : Nat) : Rat) / (1024 * 1024),
           "2024-01-05T00:00:00", "AI", s⟩] :=
  C9_ai_insights_stripped inpAI []
    ⟨"doc-5", "resume.pdf", ((1048576 : Nat) : Rat) / (1024 * 1024),
     "2024-01-05T00:00:00", "AI", .ai "A concise summary."⟩
    [⟨"doc-5", "resume.pdf", ((1048576 : Nat) : Rat) / (1024 * 1024),
      "2024-01-05T00:00:00", "AI", "A concise summary."⟩]
    [mkApiCall (some "env-key") "cat dog"] rfl rfl

/-- C10: for every text and every bound, the analyzer's keyword list has
pairwise-distinct entries, at most `n` of them, each at least 3 characters,
not a stop word, and containing no ASCII uppercase letter. -/
theorem C10_keyword_invariants (text : String) (n : Nat) :
    (get_top_keywords text n).Nodup ∧
    (get_top_keywords text n).length ≤ n ∧
    ∀ w ∈ get_top_keywords text n,
      3 ≤ w.length ∧ stop_words.contains w = false ∧
      ∀ c ∈ w.data, isAsciiUpper c = false := by
  refine ⟨get_top_keywords_nodup text n, get_top_keywords_length_le text n, ?_⟩
  intro w hw
  have hk := (get_top_keywords_mem hw).2
  unfold keepToken at hk
  simp only [Bool.and_eq_true, Bool.not_eq_true', decide_eq_true_eq] at hk
  refine ⟨by omega, hk.1, fun c hc => (get_top_keywords_chars hw c hc).2⟩

/-- C10, witness at the golden example. -/
theorem C10_keyword_invariants_witness :
    (get_top_keywords "cat cat dog dog dog bird" 5).Nodup ∧
    (get_top_keywords "cat cat dog dog dog bird" 5).length ≤ 5 ∧
    ∀ w ∈ get_top_keywords "cat cat dog dog dog bird" 5,
      3 ≤ w.length ∧ stop_words.contains w = false ∧
      ∀ c ∈ w.data, isAsciiUpper c = false :=
  C10_keyword_invariants "cat cat dog dog dog bird" 5

end DocTool
